import Mathlib

/-!
Shallow embedding of the core decision-making pipeline of a heads-up Texas
Holdem agent (files bluffing_module.py, decision_engine.py,
opponent_modeling.py), together with theorems checking the specification claims of the repository against it.

Modelling conventions:
* Python floats are embedded as exact rationals; the numeric comparisons the
  claims are about are far from any floating-point boundary.
* Deuces card integers are embedded as natural-number codes; the deuces hand
  evaluator and the in-place shuffle are external collaborators (an oracle and
  a permutation source) and are parameters of the Monte-Carlo embedding.
* The ambient random.random() stream is embedded as a function from draw
  indices to rationals together with the index of the next unconsumed draw, so
  that consumption of the stream is observable.
* Fallible operations return Except; in-place mutation is embedded as
  explicit state passing.
-/

namespace PokerAgent

/-! ## opponent_modeling.py: data model -/

/-- Playstyle labels produced by OpponentModel.predict_playstyle and
_heuristic_playstyle: the four trained categories plus the fallback value
returned as the string literal unknown in the source. -/
inductive Playstyle where
  | aggressive
  | passive
  | tight
  | loose
  | unknown
deriving DecidableEq, Repr

/-- Row of the opponent dataset: one per-street observation. This is both the
dict appended to OpponentModel.opponent_data by update_opponent_data and the
row schema of the DataFrame self.data (the dtypes table in __init__).
playstyle_label is nullable in the schema, hence Option. -/
structure Row where
  hand : String
  flop : String
  result1 : String
  turn : String
  result2 : String
  river : String
  result3 : String
  player_id : ℤ
  playstyle_label : Option String
  action_flop : String
  bet_size_flop : ℚ
  action_turn : String
  bet_size_turn : ℚ
  action_river : String
  bet_size_river : ℚ
deriving DecidableEq, Repr

/-- Feature dictionary computed by OpponentModel.compute_features. -/
structure Features where
  raise_freq : ℚ
  call_freq : ℚ
  fold_freq : ℚ
  avg_bet_size : ℚ
  weak_hand_river_freq : ℚ
  weak_hand_aggressiveness : ℚ
deriving DecidableEq, Repr

/-- State of an OpponentModel instance. opponent_data and
opponent_hands_count are the two in-memory defaultdicts (empty lists and
zero counts stand for absent keys: update_opponent_data is the only writer
and it always appends, so a present key always has a nonempty list and a
positive count); data is the DataFrame loaded from the CSV; infer abstracts
the trained RandomForestClassifier together with the label encoder
(self.model.predict followed by inverse_transform), which either yields a
label or fails (model not fitted, shape mismatch, ...). -/
structure OpponentModel where
  opponent_data : ℤ → List Row
  opponent_hands_count : ℤ → ℕ
  data : List Row
  infer : Features → Except Unit Playstyle
  min_hands_for_ml : ℕ

/-- Construction OpponentModel() with the default arguments: min_hands_for_ml
is 50 and both in-memory defaultdicts start empty. _initialize_csv only
populates self.data (the DataFrame); it never fills opponent_data or
opponent_hands_count, so a freshly constructed instance always has empty
in-memory history regardless of the CSV contents. -/
def OpponentModel.new (csv : List Row) (infer : Features → Except Unit Playstyle) :
    OpponentModel :=
  { opponent_data := fun _ => []
    opponent_hands_count := fun _ => 0
    data := csv
    infer := infer
    min_hands_for_ml := 50 }

/-! ## opponent_modeling.py: feature computation and prediction -/

/-- Per-row action list iterated by compute_features:
[action_flop, action_turn, action_river]. -/
def rowActions (r : Row) : List String :=
  [r.action_flop, r.action_turn, r.action_river]

/-- Value of action_counts[a] after the counting loop of compute_features:
actions are counted only when truthy (nonempty string). -/
def action_counts (hands : List Row) (a : String) : ℕ :=
  ((hands.flatMap rowActions).filter (fun s => !s.isEmpty)).count a

/-- Per-row bet-size list iterated by compute_features:
[bet_size_flop, bet_size_turn, bet_size_river]. -/
def rowBets (r : Row) : List ℚ :=
  [r.bet_size_flop, r.bet_size_turn, r.bet_size_river]

/-- OpponentModel.compute_features. The two early returns of the source
(player id absent from the opponent_data defaultdict, and a present key with
zero rows) both correspond to the empty record list here, since the only
writer always appends. Python truthiness: an action counts only when the
string is nonempty, a bet size only when nonzero; np.mean is sum/length. -/
def compute_features (hands : List Row) : Option Features :=
  if hands.length = 0 then none
  else
    let total : ℚ := hands.length
    let bet_sizes := (hands.flatMap rowBets).filter (fun b => decide (b ≠ 0))
    let weak := hands.filter (fun r => decide (r.result3 = "NOTHING" ∨ r.result3 = "PAIR"))
    let weak_hand_count := weak.length
    let weak_hand_aggressive :=
      (weak.filter (fun r => decide (r.action_river = "raise" ∨ r.action_river = "bet"))).length
    let weak_hand_river := (weak.filter (fun r => !r.action_river.isEmpty)).length
    some
      { raise_freq := (action_counts hands "raise" : ℚ) / total
        call_freq := (action_counts hands "call" : ℚ) / total
        fold_freq := (action_counts hands "fold" : ℚ) / total
        avg_bet_size := if bet_sizes.length = 0 then 0 else bet_sizes.sum / bet_sizes.length
        weak_hand_river_freq :=
          (weak_hand_river : ℚ) / (if weak_hand_count = 0 then 1 else weak_hand_count)
        weak_hand_aggressiveness :=
          (weak_hand_aggressive : ℚ) / (if weak_hand_count = 0 then 1 else weak_hand_count) }

/-- Classification chain of OpponentModel._heuristic_playstyle, applied to an
already-computed feature dictionary. -/
def heuristic_classify (f : Features) : Playstyle :=
  if f.raise_freq > 3/10 ∨ f.weak_hand_aggressiveness > 1/2 then .aggressive
  else if f.fold_freq > 3/5 then .tight
  else if f.call_freq > 1/2 then .passive
  else if f.weak_hand_river_freq > 1/2 then .loose
  else .unknown

/-- OpponentModel._heuristic_playstyle on the record list of a player. -/
def heuristic_playstyle (hands : List Row) : Playstyle :=
  match compute_features hands with
  | none => .unknown
  | some f => heuristic_classify f

/-- OpponentModel.predict_playstyle: below the min_hands_for_ml threshold the
heuristic answers directly; otherwise missing features yield unknown, and
classifier inference is attempted with the bare except falling back to the
heuristic, so the function is total (never propagates an error). -/
def predict_playstyle (m : OpponentModel) (player_id : ℤ) : Playstyle :=
  if m.opponent_hands_count player_id < m.min_hands_for_ml then
    heuristic_playstyle (m.opponent_data player_id)
  else
    match compute_features (m.opponent_data player_id) with
    | none => .unknown
    | some f =>
      match m.infer f with
      | .ok p => p
      | .error _ => heuristic_playstyle (m.opponent_data player_id)

/-- The list self.playstyle_labels of valid manual labels. -/
def playstyle_labels : List String := ["aggressive", "passive", "tight", "loose"]

/-- OpponentModel.label_opponent acting on the record store self.data. The
source raises ValueError (whose message lists self.playstyle_labels) before
touching the store, so the error branch carries the valid set and produces no
modified store; on success every row of the given player id gets its
playstyle_label set, via an update that leaves all other fields alone.
Persisting the store back to CSV is an external side effect outside the
embedding. -/
def label_opponent (data : List Row) (player_id : ℤ) (playstyle : String) :
    Except (List String) (List Row) :=
  if playstyle ∉ playstyle_labels then
    .error playstyle_labels
  else
    .ok (data.map fun r =>
      if r.player_id = player_id then { r with playstyle_label := some playstyle } else r)

/-! ## bluffing_module.py -/

/-- Lookup stage_weight.get(stage, 0.3) on the fixed table
Pre-Flop 0.2, Flop 0.3, Turn 0.4, River 0.5. -/
def stage_weight (stage : String) : ℚ :=
  if stage = "Pre-Flop" then 1/5
  else if stage = "Flop" then 3/10
  else if stage = "Turn" then 2/5
  else if stage = "River" then 1/2
  else 3/10

/-- pot_factor = min(pot_size / 100.0, 1.0). -/
def pot_factor (pot_size : ℚ) : ℚ := min (pot_size / 100) 1

/-- bluff_chance = aggression_level * (pot_factor + stage_factor). -/
def bluff_chance (aggression_level pot_size : ℚ) (stage : String) : ℚ :=
  aggression_level * (pot_factor pot_size + stage_weight stage)

/-- should_bluff of bluffing_module.py. It constructs a fresh OpponentModel()
(whose state is the CSV csv and classifier behaviour infer), predicts the
playstyle of player 1, scales the aggression by 1.2 for passive/tight and by
0.8 for aggressive/loose, and returns is_weak_hand and random.random() <
bluff_chance. The RNG is the stream rng with next index i; the short-circuiting Boolean and of Python consults the stream only when the hand is weak, which is
why the returned index advances exactly on that path. -/
def should_bluff (ai_hand_strength : ℤ) (pot_size : ℚ) (stage : String)
    (aggression_level : ℚ) (csv : List Row)
    (infer : Features → Except Unit Playstyle) (rng : ℕ → ℚ) (i : ℕ) :
    Bool × ℕ :=
  let m := OpponentModel.new csv infer
  let playstyle := predict_playstyle m 1
  let a :=
    if playstyle = .passive ∨ playstyle = .tight then aggression_level * (6/5)
    else if playstyle = .aggressive ∨ playstyle = .loose then aggression_level * (4/5)
    else aggression_level
  let is_weak_hand : Bool := decide (6000 < ai_hand_strength)
  let chance := bluff_chance a pot_size stage
  if is_weak_hand then (decide (rng i < chance), i + 1) else (false, i)

/-! ## decision_engine.py: pre-flop heuristic -/

/-- Keys of the ranks dictionary of estimate_preflop_strength. -/
def rank_chars : List Char := ['2', '3', '4', '5', '6', '7', '8', '9', 'T', 'J', 'Q', 'K', 'A']

/-- Lookup ranks[c] in estimate_preflop_strength (2..14 scale). The source
dictionary is partial (KeyError on a malformed rank character, a parse
failure outside core scope); characters outside rank_chars are mapped to 0
here and the theorems gate on validity. -/
def rankValue (c : Char) : ℕ :=
  if c = '2' then 2
  else if c = '3' then 3
  else if c = '4' then 4
  else if c = '5' then 5
  else if c = '6' then 6
  else if c = '7' then 7
  else if c = '8' then 8
  else if c = '9' then 9
  else if c = 'T' then 10
  else if c = 'J' then 11
  else if c = 'Q' then 12
  else if c = 'K' then 13
  else if c = 'A' then 14
  else 0

/-- estimate_preflop_strength on a two-card hand; a card string is embedded
as its (rank character, suit character) pair. -/
def estimate_preflop_strength (card1 card2 : Char × Char) : ℕ :=
  let v1 := rankValue card1.1
  let v2 := rankValue card2.1
  let base0 := max v1 v2 * 2
  let base1 := if card1.1 = card2.1 then base0 + 30 else base0
  let base2 := if card1.2 = card2.2 then base1 + 10 else base1
  let base3 := if ((v1 : ℤ) - (v2 : ℤ)).natAbs = 1 then base2 + 5 else base2
  min base3 100

/-! ## decision_engine.py: Monte-Carlo equity estimation

Deuces card integers are embedded as natural-number codes. The deuces
Evaluator and the random.shuffle permutation source are external
collaborators, bundled as parameters: oracle b h is evaluator.evaluate(b, h)
(lower rank is better) and shuffle i is the permutation random.shuffle
applies to the deck list at the end of iteration i. -/

structure MCConfig where
  oracle : List ℕ → List ℕ → ℤ
  shuffle : ℕ → List ℕ → List ℕ

/-- Removal of the known cards from the freshly constructed deck:
for card in ai_converted + board_converted: if card in deck.cards:
deck.cards.remove(card). list.remove deletes the first occurrence. -/
def remove_known (deck : List ℕ) (known : List ℕ) : List ℕ :=
  known.foldl (fun d c => if c ∈ d then d.erase c else d) deck

/-- One iteration of the loop of monte_carlo_win_rate: draw the opponent hand
(two pops from the front of the deck, deuces Deck.draw), complete the board
to five cards, evaluate both hands against the completed board, then rebuild
the deck as deck.cards += opp_hand + [c for c in remaining_board if c not in
board_converted] followed by random.shuffle. Returns the two oracle scores
(acting hand first) and the deck for the next iteration. -/
def mc_iter (cfg : MCConfig) (ai_converted board_converted : List ℕ) (i : ℕ)
    (deck : List ℕ) : (ℤ × ℤ) × List ℕ :=
  let opp_hand := deck.take 2
  let rest2 := deck.drop 2
  let draws := rest2.take (5 - board_converted.length)
  let rest := rest2.drop (5 - board_converted.length)
  let remaining_board := board_converted ++ draws
  let ai_score := cfg.oracle remaining_board ai_converted
  let opp_score := cfg.oracle remaining_board opp_hand
  ((ai_score, opp_score),
    cfg.shuffle i
      (rest ++ opp_hand ++ remaining_board.filter (fun c => decide (c ∉ board_converted))))

/-- The counting loop of monte_carlo_win_rate, running n iterations starting
at iteration index i: accumulates (wins, ties) and threads the deck. -/
def mc_run (cfg : MCConfig) (ai_converted board_converted : List ℕ) :
    ℕ → ℕ → List ℕ → (ℕ × ℕ) × List ℕ
  | _, 0, deck => ((0, 0), deck)
  | i, n + 1, deck =>
    let r := mc_iter cfg ai_converted board_converted i deck
    let rest := mc_run cfg ai_converted board_converted (i + 1) n r.2
    ((rest.1.1 + (if r.1.1 < r.1.2 then 1 else 0),
      rest.1.2 + (if r.1.1 = r.1.2 then 1 else 0)), rest.2)

/-- Trace of (ai_score, opp_score) pairs produced by the successive
iterations of the loop, in order. -/
def mc_scores (cfg : MCConfig) (ai_converted board_converted : List ℕ) :
    ℕ → ℕ → List ℕ → List (ℤ × ℤ)
  | _, 0, _ => []
  | i, n + 1, deck =>
    let r := mc_iter cfg ai_converted board_converted i deck
    r.1 :: mc_scores cfg ai_converted board_converted (i + 1) n r.2

/-- monte_carlo_win_rate: remove the known cards from the (already shuffled)
full deck full_deck, run num_simulations iterations and return
wins / num_simulations. -/
def monte_carlo_win_rate (cfg : MCConfig) (full_deck : List ℕ)
    (ai_converted board_converted : List ℕ) (num_simulations : ℕ) : ℚ :=
  let deck0 := remove_known full_deck (ai_converted ++ board_converted)
  ((mc_run cfg ai_converted board_converted 0 num_simulations deck0).1.1 : ℚ) /
    (num_simulations : ℚ)

/-! ## decision_engine.py: decision engine -/

/-- Truncation toward zero performed by the Python int() conversion on a float. -/
def pyInt (q : ℚ) : ℤ := if 0 ≤ q then ⌊q⌋ else ⌈q⌉

/-- Threshold adjustment of make_ai_decision: from the predicted playstyle to
(win_rate_threshold, bluff_aggression), defaults (0.75, 0.9). -/
def adjust_params (playstyle : Playstyle) : ℚ × ℚ :=
  if playstyle = .aggressive then (4/5, 7/10)
  else if playstyle = .passive then (7/10, 1)
  else if playstyle = .tight then (7/10, 1)
  else if playstyle = .loose then (4/5, 7/10)
  else (3/4, 9/10)

/-- make_ai_decision of decision_engine.py. ai_hand is the two-card hand as
(rank, suit) character pairs (used by the pre-flop heuristic); ai_converted
and board_converted are the corresponding deuces codes (conversion preserves
length, so the board-length test uses board_converted). A fresh
OpponentModel() is constructed from the CSV, exactly as in the source (and
likewise inside should_bluff). rng is the ambient random.random() stream
starting at this call, so the single float draw a branch may make is rng 0;
coin abstracts random.choice between the two listed responses (true picks
the check response). Debug printing, the bluff-statistics counters and the bluff
log file are external side effects outside the embedding. -/
def make_ai_decision (cfg : MCConfig) (full_deck : List ℕ)
    (ai_hand : (Char × Char) × (Char × Char)) (ai_converted : List ℕ)
    (board_converted : List ℕ) (player_action : String) (pot_size : ℚ)
    (stage : String) (last_player_bet : ℚ) (csv : List Row)
    (infer : Features → Except Unit Playstyle) (rng : ℕ → ℚ) (coin : Bool) :
    String × ℤ :=
  let m := OpponentModel.new csv infer
  let playstyle := predict_playstyle m 1
  let params := adjust_params playstyle
  let win_rate_threshold := params.1
  let bluff_aggression := params.2
  if board_converted.length < 3 then
    let score := estimate_preflop_strength ai_hand.1 ai_hand.2
    if player_action = "check" then
      if rng 0 < 3/10 ∨ 60 < score then ("bet", 20) else ("check", 0)
    else
      if playstyle = .aggressive ∧ score < 50 then ("fold", 0) else ("call", 0)
  else
    let win_rate := monte_carlo_win_rate cfg full_deck ai_converted board_converted 1000
    if player_action = "check" then
      if win_rate_threshold < win_rate then ("check", 0)
      else if (2/5 : ℚ) < win_rate then
        (if coin then ("check", 0) else ("bet", 30))
      else if (should_bluff 7000 pot_size stage bluff_aggression csv infer rng 0).1 then
        ("bet", 30)
      else ("check", 0)
    else if player_action = "bet" then
      if win_rate_threshold < win_rate then ("call", 0)
      else if (should_bluff 7000 pot_size stage bluff_aggression csv infer rng 0).1 then
        ("raise", max (pyInt (last_player_bet * (3/2))) (max (pyInt (pot_size * (1/10))) 10))
      else ("fold", 0)
    else ("check", 0)

/-! ## Auxiliary definitions used by the theorems -/

/-- Equality of two rows on every field except playstyle_label. -/
def sameExceptLabel (r s : Row) : Prop :=
  r.hand = s.hand ∧ r.flop = s.flop ∧ r.result1 = s.result1 ∧ r.turn = s.turn ∧
  r.result2 = s.result2 ∧ r.river = s.river ∧ r.result3 = s.result3 ∧
  r.player_id = s.player_id ∧ r.action_flop = s.action_flop ∧
  r.bet_size_flop = s.bet_size_flop ∧ r.action_turn = s.action_turn ∧
  r.bet_size_turn = s.bet_size_turn ∧ r.action_river = s.action_river ∧
  r.bet_size_river = s.bet_size_river

/-- Concrete oracle/shuffle pair for witnesses: the oracle ranks the fixed
hand [100, 101] strictly best and the shuffle is the identity permutation. -/
def cfgW : MCConfig :=
  ⟨fun _ h => if h = [100, 101] then 0 else 1, fun _ l => l⟩

/-- Concrete classifier behaviour for witnesses: inference always fails. -/
def inferW : Features → Except Unit Playstyle := fun _ => .error ()

/-- Concrete RNG stream for witnesses: every draw is 1/2. -/
def rngW : ℕ → ℚ := fun _ => 1/2

/-- Concrete RNG stream for witnesses: every draw is 0. -/
def rng0 : ℕ → ℚ := fun _ => 0

/-- Concrete observation row for witnesses: player 1, all fields empty. -/
def exampleRow : Row := ⟨"", "", "", "", "", "", "", 1, none, "", 0, "", 0, "", 0⟩

/-- Concrete opponent-model state for witnesses: no recorded history. -/
def modelBelow : OpponentModel :=
  ⟨fun _ => [], fun _ => 0, [], fun _ => .ok .aggressive, 50⟩

/-- Concrete opponent-model state for witnesses: 60 recorded rounds, one
stored row, and a classifier whose inference always fails. -/
def modelAbove : OpponentModel :=
  ⟨fun _ => [exampleRow], fun _ => 60, [], fun _ => .error (), 50⟩

/-! ## Helper lemmas -/

/-- Freshly constructed OpponentModel() instances always predict unknown: the
in-memory defaultdicts start empty, so the hands count is 0 (below the
threshold) and the heuristic finds no features. -/
theorem predict_playstyle_new (csv : List Row)
    (infer : Features → Except Unit Playstyle) (player_id : ℤ) :
    predict_playstyle (OpponentModel.new csv infer) player_id = .unknown := by
  simp [predict_playstyle, OpponentModel.new, heuristic_playstyle, compute_features]

/-- Valid rank characters map to the 2..14 scale of the ranks dictionary. -/
theorem rankValue_bounds : ∀ c ∈ rank_chars, 2 ≤ rankValue c ∧ rankValue c ≤ 14 := by
  decide

/-! ## C1 and C2: the bluff trigger -/

/-- C1: for every RNG seed (stream and position, with the draw in [0,1)) and
every opponent-model state (CSV contents and classifier behaviour — the
fresh instance should_bluff constructs always predicts unknown, so the
aggression stays 0.9), should_bluff with a weak hand (strength > 6000),
potSize = 80, stage = Turn, aggression 0.9 computes
bluffChance = 0.9 * (0.8 + 0.4) = 1.08 = 27/25, which is not clamped, and
since every uniform draw is below 1 ≤ 27/25 the call returns true on every
invocation (consuming exactly one draw). -/
theorem should_bluff_weak_turn_pot80_always_true (ai_hand_strength : ℤ)
    (csv : List Row) (infer : Features → Except Unit Playstyle)
    (rng : ℕ → ℚ) (i : ℕ) (hweak : 6000 < ai_hand_strength)
    (h0 : 0 ≤ rng i) (h1 : rng i < 1) :
    bluff_chance (9/10) 80 "Turn" = 27/25 ∧
    should_bluff ai_hand_strength 80 "Turn" (9/10) csv infer rng i = (true, i + 1) := by
  have hstage : stage_weight "Turn" = 2/5 := by simp +decide [stage_weight]
  have hchance : bluff_chance (9/10) 80 "Turn" = 27/25 := by
    norm_num [bluff_chance, pot_factor, hstage]
  refine ⟨hchance, ?_⟩
  simp only [should_bluff, predict_playstyle_new]
  simp +decide [hweak, hchance]
  linarith

/-- Witness for C1 at a concrete weak hand, model state and draw. -/
theorem should_bluff_weak_turn_pot80_always_true_witness :
    should_bluff 7000 80 "Turn" (9/10) [] inferW rngW 0 = (true, 1) :=
  (should_bluff_weak_turn_pot80_always_true 7000 [] inferW rngW 0
    (by norm_num) (by norm_num [rngW]) (by norm_num [rngW])).2

/-- C2: for every hand-strength score at most 6000, should_bluff returns
false whatever the pot, stage, aggression, model state and RNG stream, and
the RNG is not consulted: the returned next-draw index equals the input
index (the short-circuiting Boolean and of Python skips random.random() when
is_weak_hand is false). -/
theorem should_bluff_strong_false (ai_hand_strength : ℤ) (pot_size : ℚ)
    (stage : String) (aggression_level : ℚ) (csv : List Row)
    (infer : Features → Except Unit Playstyle) (rng : ℕ → ℚ) (i : ℕ)
    (h : ai_hand_strength ≤ 6000) :
    should_bluff ai_hand_strength pot_size stage aggression_level csv infer rng i =
      (false, i) := by
  simp only [should_bluff]
  have : ¬ (6000 : ℤ) < ai_hand_strength := not_lt.mpr h
  simp [this]

/-- Witness for C2 at a concrete strong hand. -/
theorem should_bluff_strong_false_witness :
    should_bluff 5000 80 "River" (9/10) [] inferW rngW 7 = (false, 7) :=
  should_bluff_strong_false 5000 80 "River" (9/10) [] inferW rngW 7 (by norm_num)

/-! ## C3: the pre-flop heuristic -/

/-- C3: for every two-card hand with valid rank characters, the pre-flop
score equals min(100, 2 * max rank value + 30 if paired + 10 if suited + 5
if the rank gap is exactly 1), the rank values lie on the 2..14 scale, the
score is at most 100 (hence in [0,100]), and score(A spades, A hearts) = 58
(paired, not suited, not adjacent). Determinism and absence of side effects
are inherent: estimate_preflop_strength is a pure function. -/
theorem estimate_preflop_strength_spec (card1 card2 : Char × Char)
    (h1 : card1.1 ∈ rank_chars) (h2 : card2.1 ∈ rank_chars) :
    estimate_preflop_strength card1 card2 =
      min 100 (2 * max (rankValue card1.1) (rankValue card2.1)
        + ((if card1.1 = card2.1 then 30 else 0)
          + (if card1.2 = card2.2 then 10 else 0)
          + (if ((rankValue card1.1 : ℤ) - (rankValue card2.1 : ℤ)).natAbs = 1
              then 5 else 0))) ∧
    estimate_preflop_strength card1 card2 ≤ 100 ∧
    (2 ≤ rankValue card1.1 ∧ rankValue card1.1 ≤ 14) ∧
    (2 ≤ rankValue card2.1 ∧ rankValue card2.1 ≤ 14) ∧
    estimate_preflop_strength ('A', '♠') ('A', '♥') = 58 := by
  refine ⟨?_, ?_, rankValue_bounds _ h1, rankValue_bounds _ h2, by decide⟩
  · simp only [estimate_preflop_strength]
    split_ifs <;> omega
  · exact Nat.min_le_right _ _

/-- Witness for C3 at the concrete hand of the claim. -/
theorem estimate_preflop_strength_spec_witness :
    estimate_preflop_strength ('A', '♠') ('A', '♥') = 58 :=
  (estimate_preflop_strength_spec ('A', '♠') ('A', '♥')
    (by decide) (by decide)).2.2.2.2

/-! ## C6: the playstyle heuristic -/

/-- C6: the heuristic applies its rules in the fixed order aggressive
(raise_freq > 0.3 or weak_hand_aggressiveness > 0.5), then tight
(fold_freq > 0.6), then passive (call_freq > 0.5), then loose
(weak_hand_river_freq > 0.5), else unknown, the first matching rule
winning: each later rule fires only when all earlier guards fail. Any
feature vector with raise_freq = 0.5 is classified aggressive regardless of
every other feature value; an empty record yields unknown; and every player
with a non-empty record is classified by applying the rule chain to its
computed feature vector. -/
theorem heuristic_playstyle_spec :
    (∀ f : Features, f.raise_freq = 1/2 → heuristic_classify f = .aggressive) ∧
    heuristic_playstyle [] = .unknown ∧
    (∀ hands : List Row, hands ≠ [] →
      ∃ f, compute_features hands = some f ∧
        heuristic_playstyle hands = heuristic_classify f) ∧
    (∀ f : Features, f.raise_freq ≤ 3/10 → f.weak_hand_aggressiveness ≤ 1/2 →
      f.fold_freq > 3/5 → heuristic_classify f = .tight) ∧
    (∀ f : Features, f.raise_freq ≤ 3/10 → f.weak_hand_aggressiveness ≤ 1/2 →
      f.fold_freq ≤ 3/5 → f.call_freq > 1/2 → heuristic_classify f = .passive) ∧
    (∀ f : Features, f.raise_freq ≤ 3/10 → f.weak_hand_aggressiveness ≤ 1/2 →
      f.fold_freq ≤ 3/5 → f.call_freq ≤ 1/2 → f.weak_hand_river_freq > 1/2 →
      heuristic_classify f = .loose) ∧
    (∀ f : Features, f.raise_freq ≤ 3/10 → f.weak_hand_aggressiveness ≤ 1/2 →
      f.fold_freq ≤ 3/5 → f.call_freq ≤ 1/2 → f.weak_hand_river_freq ≤ 1/2 →
      heuristic_classify f = .unknown) := by
  refine ⟨?_, by simp [heuristic_playstyle, compute_features], ?_, ?_, ?_, ?_, ?_⟩
  · intro f hf
    have : f.raise_freq > 3/10 := by rw [hf]; norm_num
    simp [heuristic_classify, this]
  · intro hands hne
    have hlen : ¬ hands.length = 0 := fun h => hne (List.length_eq_zero.mp h)
    simp only [heuristic_playstyle, compute_features, if_neg hlen]
    exact ⟨_, rfl, rfl⟩
  · intro f h1 h2 h3
    have g1 : ¬ (f.raise_freq > 3/10 ∨ f.weak_hand_aggressiveness > 1/2) := by
      push_neg
      exact ⟨h1, h2⟩
    simp only [heuristic_classify, if_neg g1, if_pos h3]
  · intro f h1 h2 h3 h4
    have g1 : ¬ (f.raise_freq > 3/10 ∨ f.weak_hand_aggressiveness > 1/2) := by
      push_neg
      exact ⟨h1, h2⟩
    simp only [heuristic_classify, if_neg g1, if_neg (not_lt.mpr h3), if_pos h4]
  · intro f h1 h2 h3 h4 h5
    have g1 : ¬ (f.raise_freq > 3/10 ∨ f.weak_hand_aggressiveness > 1/2) := by
      push_neg
      exact ⟨h1, h2⟩
    simp only [heuristic_classify, if_neg g1, if_neg (not_lt.mpr h3),
      if_neg (not_lt.mpr h4), if_pos h5]
  · intro f h1 h2 h3 h4 h5
    have g1 : ¬ (f.raise_freq > 3/10 ∨ f.weak_hand_aggressiveness > 1/2) := by
      push_neg
      exact ⟨h1, h2⟩
    simp only [heuristic_classify, if_neg g1, if_neg (not_lt.mpr h3),
      if_neg (not_lt.mpr h4), if_neg (not_lt.mpr h5)]

/-- Witness for C6: a feature vector with raise_freq = 0.5 and every other
feature pushed across the boundary of its own rule still classifies aggressive,
and the empty record classifies unknown. -/
theorem heuristic_playstyle_spec_witness :
    heuristic_classify ⟨1/2, 1, 1, 5, 1, 1⟩ = .aggressive ∧
    heuristic_playstyle [] = .unknown :=
  ⟨heuristic_playstyle_spec.1 ⟨1/2, 1, 1, 5, 1, 1⟩ rfl, heuristic_playstyle_spec.2.1⟩

/-! ## C7: playstyle prediction with fallback -/

/-- C7: with the threshold at its constructed value 50, predict_playstyle
returns the heuristic result whenever the recorded round count is below 50,
and on that path the classifier is never consulted (the result is
independent of the inference function); with count at least 50 it returns
unknown when no features exist, and any inference failure is replaced by
the heuristic result. Totality of predict_playstyle (an error is never
surfaced to the caller) is inherent: it is a function into Playstyle. -/
theorem predict_playstyle_spec (m : OpponentModel) (player_id : ℤ)
    (hmin : m.min_hands_for_ml = 50) :
    (m.opponent_hands_count player_id < 50 →
      predict_playstyle m player_id = heuristic_playstyle (m.opponent_data player_id) ∧
      ∀ g, predict_playstyle { m with infer := g } player_id =
        predict_playstyle m player_id) ∧
    (50 ≤ m.opponent_hands_count player_id →
      (compute_features (m.opponent_data player_id) = none →
        predict_playstyle m player_id = .unknown) ∧
      (∀ f e, compute_features (m.opponent_data player_id) = some f →
        m.infer f = .error e →
        predict_playstyle m player_id =
          heuristic_playstyle (m.opponent_data player_id))) := by
  constructor
  · intro hlt
    constructor
    · simp [predict_playstyle, hmin, hlt]
    · intro g
      simp [predict_playstyle, hmin, hlt]
  · intro hge
    have hnot : ¬ m.opponent_hands_count player_id < m.min_hands_for_ml := by omega
    constructor
    · intro hnone
      simp [predict_playstyle, hnot, hnone]
    · intro f e hsome herr
      simp [predict_playstyle, hnot, hsome, herr]

/-- Witness for C7: a below-threshold state answers with the heuristic, and
an above-threshold state whose classifier fails falls back to the
heuristic. -/
theorem predict_playstyle_spec_witness :
    predict_playstyle modelBelow 1 = heuristic_playstyle [] ∧
    predict_playstyle modelAbove 1 = heuristic_playstyle [exampleRow] := by
  constructor
  · exact ((predict_playstyle_spec modelBelow 1 rfl).1 (by norm_num [modelBelow])).1
  · exact ((predict_playstyle_spec modelAbove 1 rfl).2 (by norm_num [modelAbove])).2
      ⟨0, 0, 0, 0, 0, 0⟩ ()
      (by simp [modelAbove, exampleRow, compute_features, action_counts, rowActions, rowBets]
          <;> decide)
      rfl

/-! ## C8: manual labelling -/

/-- C8: label_opponent fails with the error value listing the valid set
exactly when the playstyle is not one of aggressive, passive, tight, loose
(the check precedes any mutation, so an erroring call produces no modified
store); on a valid label it succeeds, and in the resulting store the
playstyle_label of every row of the given player id is the given label,
the label of every other row is unchanged, and every other field of every
row is unmodified. -/
theorem label_opponent_spec (data : List Row) (player_id : ℤ) (playstyle : String) :
    (label_opponent data player_id playstyle = .error playstyle_labels ↔
      playstyle ∉ playstyle_labels) ∧
    (playstyle ∈ playstyle_labels →
      ∃ d2, label_opponent data player_id playstyle = .ok d2 ∧
        d2.length = data.length ∧
        ∀ i (hi : i < data.length) (hi2 : i < d2.length),
          (d2[i].playstyle_label =
            if data[i].player_id = player_id then some playstyle
            else data[i].playstyle_label) ∧
          sameExceptLabel data[i] d2[i]) := by
  constructor
  · constructor
    · intro h hmem
      simp [label_opponent, hmem] at h
    · intro hmem
      simp [label_opponent, hmem]
  · intro hmem
    refine ⟨data.map (fun r =>
        if r.player_id = player_id then { r with playstyle_label := some playstyle } else r),
      by simp [label_opponent, hmem], by simp, ?_⟩
    intro i hi hi2
    simp only [List.getElem_map]
    by_cases hpid : data[i].player_id = player_id
    · simp [hpid, sameExceptLabel]
    · simp [hpid, sameExceptLabel]

/-- Witness for C8: an invalid label errors with the valid set, a valid
label on a one-row store relabels that row. -/
theorem label_opponent_spec_witness :
    label_opponent [] 1 "semi-loose" = .error playstyle_labels ∧
    label_opponent [exampleRow] 1 "tight" =
      .ok [{ exampleRow with playstyle_label := some "tight" }] := by
  constructor
  · exact (label_opponent_spec [] 1 "semi-loose").1.mpr (by decide)
  · obtain ⟨d2, hok, hlen, hrows⟩ :=
      (label_opponent_spec [exampleRow] 1 "tight").2 (by decide)
    rw [hok]
    simp only [List.length_singleton] at hlen
    obtain ⟨r, rfl⟩ : ∃ r, d2 = [r] := by
      cases d2 with
      | nil => simp at hlen
      | cons a t => cases t with
        | nil => exact ⟨a, rfl⟩
        | cons b t2 => simp at hlen
    obtain ⟨hlab, hsame⟩ := hrows 0 (by norm_num) (by norm_num)
    simp only [List.getElem_cons_zero] at hlab hsame
    obtain ⟨e1, e2, e3, e4, e5, e6, e7, e8, e9, e10, e11, e12, e13, e14⟩ := hsame
    have : r = { exampleRow with playstyle_label := some "tight" } := by
      cases r
      simp_all [exampleRow]
    rw [this]

/-! ## C4 and C5: the Monte-Carlo loop -/

/-- The wins and ties counters of the loop count exactly the iterations
whose score pair is a strict win, respectively an exact tie. -/
theorem mc_run_counts (cfg : MCConfig) (hand board : List ℕ) :
    ∀ (n i : ℕ) (deck : List ℕ),
      (mc_run cfg hand board i n deck).1.1 =
        (mc_scores cfg hand board i n deck).countP (fun p => decide (p.1 < p.2)) ∧
      (mc_run cfg hand board i n deck).1.2 =
        (mc_scores cfg hand board i n deck).countP (fun p => decide (p.1 = p.2)) := by
  intro n
  induction n with
  | zero => intro i deck; simp [mc_run, mc_scores]
  | succ n ih =>
    intro i deck
    obtain ⟨ih1, ih2⟩ := ih (i + 1) (mc_iter cfg hand board i deck).2
    simp [mc_run, mc_scores, List.countP_cons, ih1, ih2]

/-- The wins counter never exceeds the number of iterations. -/
theorem mc_run_wins_le (cfg : MCConfig) (hand board : List ℕ) :
    ∀ (n i : ℕ) (deck : List ℕ), (mc_run cfg hand board i n deck).1.1 ≤ n := by
  intro n
  induction n with
  | zero => intro i deck; simp [mc_run]
  | succ n ih =>
    intro i deck
    have h := ih (i + 1) (mc_iter cfg hand board i deck).2
    simp only [mc_run]
    split_ifs <;> omega

/-- C4: for every oracle, shuffle behaviour, deck, hand, board and trial
count at least 1, monte_carlo_win_rate returns exactly wins / trials where
the wins counter counts precisely the iterations whose acting-hand rank is
strictly lower (better) than the rank of the opponent; exact ties are counted in the
separate ties counter, which does not enter the returned ratio; and the
returned value lies in [0,1]. -/
theorem monte_carlo_win_rate_spec (cfg : MCConfig) (full_deck hand board : List ℕ)
    (n : ℕ) (hn : 1 ≤ n) :
    monte_carlo_win_rate cfg full_deck hand board n =
      ((mc_scores cfg hand board 0 n (remove_known full_deck (hand ++ board))).countP
          (fun p => decide (p.1 < p.2)) : ℚ) / (n : ℚ) ∧
    (mc_run cfg hand board 0 n (remove_known full_deck (hand ++ board))).1.2 =
      (mc_scores cfg hand board 0 n (remove_known full_deck (hand ++ board))).countP
        (fun p => decide (p.1 = p.2)) ∧
    0 ≤ monte_carlo_win_rate cfg full_deck hand board n ∧
    monte_carlo_win_rate cfg full_deck hand board n ≤ 1 := by
  obtain ⟨h1, h2⟩ := mc_run_counts cfg hand board n 0 (remove_known full_deck (hand ++ board))
  have hn0 : (0 : ℚ) < (n : ℚ) := by
    have : 0 < n := hn
    exact_mod_cast this
  refine ⟨?_, h2, ?_, ?_⟩
  · simp only [monte_carlo_win_rate]
    rw [h1]
  · simp only [monte_carlo_win_rate]
    positivity
  · simp only [monte_carlo_win_rate]
    rw [div_le_one hn0]
    exact_mod_cast mc_run_wins_le cfg hand board n 0 _

/-- Witness for C4 at a concrete oracle, deck and trial count. -/
theorem monte_carlo_win_rate_spec_witness :
    0 ≤ monte_carlo_win_rate cfgW (List.range 52) [100, 101] [0, 1, 2] 3 ∧
    monte_carlo_win_rate cfgW (List.range 52) [100, 101] [0, 1, 2] 3 ≤ 1 := by
  obtain ⟨-, -, h3, h4⟩ :=
    monte_carlo_win_rate_spec cfgW (List.range 52) [100, 101] [0, 1, 2] 3 (by norm_num)
  exact ⟨h3, h4⟩

/-- Unfolding lemma for remove_known: the guarded erase of the head equals a
plain erase, since erasing an absent element is a no-op. -/
theorem remove_known_cons (l : List ℕ) (a : ℕ) (ks : List ℕ) :
    remove_known l (a :: ks) = remove_known (l.erase a) ks := by
  simp only [remove_known, List.foldl_cons]
  congr 1
  split_ifs with h
  · rfl
  · rw [List.erase_of_not_mem h]

/-- Removal of known cards only ever deletes cards: the result is contained
in the starting deck. -/
theorem remove_known_subset (ks : List ℕ) : ∀ l : List ℕ, remove_known l ks ⊆ l := by
  induction ks with
  | nil => intro l; simp [remove_known]
  | cons a ks ih =>
    intro l
    rw [remove_known_cons]
    exact (ih (l.erase a)).trans (List.erase_subset a l)

/-- Initial removal of the known cards, as a multiset identity: the starting
pool is the full deck minus the hand and board cards. -/
theorem remove_known_coe (ks : List ℕ) : ∀ l : List ℕ,
    ((remove_known l ks : List ℕ) : Multiset ℕ) = (l : Multiset ℕ) - (ks : Multiset ℕ) := by
  induction ks with
  | nil => intro l; simp [remove_known]
  | cons a ks ih =>
    intro l
    rw [remove_known_cons, ih (l.erase a), ← Multiset.cons_coe, Multiset.sub_cons,
      ← Multiset.coe_erase]

/-- On a duplicate-free full deck, no board card survives the removal of the
known cards. -/
theorem remove_known_board_free (full hand board : List ℕ) (hfull : full.Nodup)
    {c : ℕ} (hc : c ∈ board) : c ∉ remove_known full (hand ++ board) := by
  intro hmem
  rw [← Multiset.mem_coe, remove_known_coe] at hmem
  have h1 : 1 ≤ Multiset.count c ((full : Multiset ℕ) - ((hand ++ board : List ℕ) : Multiset ℕ)) :=
    Multiset.one_le_count_iff_mem.mpr hmem
  rw [Multiset.count_sub] at h1
  have h2 : Multiset.count c (full : Multiset ℕ) ≤ 1 := by
    rw [Multiset.coe_count]
    exact List.nodup_iff_count_le_one.mp hfull c
  have h3 : 1 ≤ Multiset.count c ((hand ++ board : List ℕ) : Multiset ℕ) := by
    rw [Multiset.coe_count]
    exact List.count_pos_iff.mpr (List.mem_append_right hand hc)
  omega

/-- One iteration preserves the sampling pool as a multiset and keeps it free
of board cards: every drawn card is returned before the shuffle (the filter
drops exactly the original board prefix of the completed board), and the
shuffle is a permutation. -/
theorem mc_iter_deck (cfg : MCConfig) (hand board : List ℕ) (i : ℕ) (deck : List ℕ)
    (hshuf : ∀ j l, List.Perm (cfg.shuffle j l) l)
    (hd : ∀ c ∈ deck, c ∉ board) :
    ((mc_iter cfg hand board i deck).2 : Multiset ℕ) = (deck : Multiset ℕ) ∧
    ∀ c ∈ (mc_iter cfg hand board i deck).2, c ∉ board := by
  have hdraws : ∀ c ∈ (deck.drop 2).take (5 - board.length), c ∉ board := fun c hc =>
    hd c (List.drop_subset 2 deck (List.take_subset _ _ hc))
  have hfilter :
      (board ++ (deck.drop 2).take (5 - board.length)).filter
          (fun c => decide (c ∉ board)) =
        (deck.drop 2).take (5 - board.length) := by
    rw [List.filter_append]
    have hb : board.filter (fun c => decide (c ∉ board)) = [] := by
      rw [List.filter_eq_nil_iff]
      intro a ha
      simp [ha]
    have hdr : ((deck.drop 2).take (5 - board.length)).filter
        (fun c => decide (c ∉ board)) = (deck.drop 2).take (5 - board.length) := by
      rw [List.filter_eq_self]
      intro a ha
      simpa using hdraws a ha
    rw [hb, hdr, List.nil_append]
  have hpre :
      (((deck.drop 2).drop (5 - board.length) ++ deck.take 2 ++
          (deck.drop 2).take (5 - board.length) : List ℕ) : Multiset ℕ) =
        (deck : Multiset ℕ) := by
    have hdeck : deck = deck.take 2 ++ ((deck.drop 2).take (5 - board.length) ++
        (deck.drop 2).drop (5 - board.length)) := by
      rw [List.take_append_drop, List.take_append_drop]
    conv_rhs => rw [hdeck]
    rw [← Multiset.coe_add, ← Multiset.coe_add, ← Multiset.coe_add, ← Multiset.coe_add]
    abel
  have hiter : (mc_iter cfg hand board i deck).2 =
      cfg.shuffle i ((deck.drop 2).drop (5 - board.length) ++ deck.take 2 ++
        (deck.drop 2).take (5 - board.length)) := by
    simp only [mc_iter, hfilter]
  constructor
  · rw [hiter]
    calc ((cfg.shuffle i _ : List ℕ) : Multiset ℕ)
        = _ := Multiset.coe_eq_coe.mpr (hshuf i _)
      _ = (deck : Multiset ℕ) := hpre
  · intro c hc
    rw [hiter] at hc
    have hc2 : c ∈ (deck.drop 2).drop (5 - board.length) ++ deck.take 2 ++
        (deck.drop 2).take (5 - board.length) := (hshuf i _).mem_iff.mp hc
    rcases List.mem_append.mp hc2 with h | h
    · rcases List.mem_append.mp h with h | h
      · exact hd c (List.drop_subset 2 deck (List.drop_subset _ _ h))
      · exact hd c (List.take_subset _ _ h)
    · exact hdraws c h

/-- Running any number of iterations preserves the sampling pool as a
multiset from a board-free starting pool. -/
theorem mc_run_deck (cfg : MCConfig) (hand board : List ℕ)
    (hshuf : ∀ j l, List.Perm (cfg.shuffle j l) l) :
    ∀ (n i : ℕ) (deck : List ℕ), (∀ c ∈ deck, c ∉ board) →
      ((mc_run cfg hand board i n deck).2 : Multiset ℕ) = (deck : Multiset ℕ) := by
  intro n
  induction n with
  | zero => intro i deck _; simp [mc_run]
  | succ n ih =>
    intro i deck hd
    obtain ⟨h1, h2⟩ := mc_iter_deck cfg hand board i deck hshuf hd
    have h3 := ih (i + 1) _ h2
    simp only [mc_run]
    exact h3.trans h1

/-- C5: for every duplicate-free full deck and permutation-valued shuffle,
the sampling pool at the start of every iteration of monte_carlo_win_rate
equals, as a multiset, the starting pool, which is itself the full deck
minus the acting hand and the known board cards; iterations are therefore
mutually independent rather than progressively depleting the deck. -/
theorem mc_deck_invariant (cfg : MCConfig) (full_deck hand board : List ℕ)
    (hfull : full_deck.Nodup)
    (hshuf : ∀ j l, List.Perm (cfg.shuffle j l) l) :
    ((remove_known full_deck (hand ++ board) : List ℕ) : Multiset ℕ) =
      (full_deck : Multiset ℕ) - ((hand ++ board : List ℕ) : Multiset ℕ) ∧
    ∀ (n i : ℕ),
      ((mc_run cfg hand board i n (remove_known full_deck (hand ++ board))).2 : Multiset ℕ) =
        ((remove_known full_deck (hand ++ board) : List ℕ) : Multiset ℕ) := by
  refine ⟨remove_known_coe _ _, fun n i => ?_⟩
  exact mc_run_deck cfg hand board hshuf n i _
    (fun c hc hcb => remove_known_board_free full_deck hand board hfull hcb hc)

/-- Witness for C5: the pool after two iterations on the standard deck with
a concrete hand and flop is the starting pool. -/
theorem mc_deck_invariant_witness :
    ((mc_run cfgW [100, 101] [0, 1, 2] 0 2
        (remove_known (List.range 52) ([100, 101] ++ [0, 1, 2]))).2 : Multiset ℕ) =
      ((remove_known (List.range 52) ([100, 101] ++ [0, 1, 2]) : List ℕ) : Multiset ℕ) :=
  (mc_deck_invariant cfgW (List.range 52) [100, 101] [0, 1, 2]
    (List.nodup_range 52) (fun _ l => List.Perm.refl l)).2 2 0

/-! ## C9 and C10: the decision engine -/

/-- C9: in the post-flop branch (board with at least 3 cards), whenever the
computed win rate strictly exceeds the playstyle-adjusted threshold, the
decision is (check, 0) on an observed check and (call, 0) on an observed
bet, for every pot size, stage and last bet. -/
theorem make_ai_decision_highwin (cfg : MCConfig) (full_deck : List ℕ)
    (ai_hand : (Char × Char) × (Char × Char)) (ai_converted board_converted : List ℕ)
    (pot_size : ℚ) (stage : String) (last_player_bet : ℚ) (csv : List Row)
    (infer : Features → Except Unit Playstyle) (rng : ℕ → ℚ) (coin : Bool)
    (hb : 3 ≤ board_converted.length)
    (hw : (adjust_params (predict_playstyle (OpponentModel.new csv infer) 1)).1 <
      monte_carlo_win_rate cfg full_deck ai_converted board_converted 1000) :
    make_ai_decision cfg full_deck ai_hand ai_converted board_converted "check" pot_size
      stage last_player_bet csv infer rng coin = ("check", 0) ∧
    make_ai_decision cfg full_deck ai_hand ai_converted board_converted "bet" pot_size
      stage last_player_bet csv infer rng coin = ("call", 0) := by
  have hb2 : ¬ board_converted.length < 3 := by omega
  constructor
  · simp only [make_ai_decision, if_neg hb2]
    simp [hw]
  · simp only [make_ai_decision, if_neg hb2]
    simp +decide [hw]

/-- Accumulation lemma for the C9 witness: if from every reachable deck an
iteration produces a strict win and preserves reachability, the wins counter
equals the number of iterations. -/
theorem mc_run_wins_all (cfg : MCConfig) (hand board : List ℕ) (P : List ℕ → Prop)
    (hstep : ∀ i d, P d →
      (mc_iter cfg hand board i d).1.1 < (mc_iter cfg hand board i d).1.2 ∧
      P (mc_iter cfg hand board i d).2) :
    ∀ (n i : ℕ) (d : List ℕ), P d → (mc_run cfg hand board i n d).1.1 = n := by
  intro n
  induction n with
  | zero => intro i d _; simp [mc_run]
  | succ n ih =>
    intro i d hP
    obtain ⟨hlt, hP2⟩ := hstep i d hP
    simp only [mc_run, ih (i + 1) _ hP2, if_pos hlt]

/-- Every iteration of the witness oracle cfgW is a strict win on a deck not
containing card 100, and the successor deck again avoids card 100. -/
theorem cfgW_step : ∀ (i : ℕ) (d : List ℕ), (100 : ℕ) ∉ d →
    (mc_iter cfgW [100, 101] [0, 1, 2] i d).1.1 <
      (mc_iter cfgW [100, 101] [0, 1, 2] i d).1.2 ∧
    (100 : ℕ) ∉ (mc_iter cfgW [100, 101] [0, 1, 2] i d).2 := by
  intro i d hd
  have hopp : d.take 2 ≠ [100, 101] := by
    intro heq
    exact hd (List.take_subset 2 d (by rw [heq]; simp))
  constructor
  · simp only [mc_iter, cfgW, if_pos rfl, if_neg hopp]
    norm_num
  · intro hmem
    simp only [mc_iter, cfgW] at hmem
    rcases List.mem_append.mp hmem with h | h
    · rcases List.mem_append.mp h with h | h
      · exact hd (List.drop_subset 2 d (List.drop_subset _ _ h))
      · exact hd (List.take_subset _ _ h)
    · rcases List.mem_append.mp (List.mem_of_mem_filter h) with h2 | h2
      · simp at h2
      · exact hd (List.drop_subset 2 d (List.take_subset _ _ h2))

/-- The witness oracle yields a computed win rate of 1 on the standard deck. -/
theorem cfgW_winrate :
    monte_carlo_win_rate cfgW (List.range 52) [100, 101] [0, 1, 2] 1000 = 1 := by
  simp only [monte_carlo_win_rate]
  rw [mc_run_wins_all cfgW [100, 101] [0, 1, 2] (fun d => (100 : ℕ) ∉ d) cfgW_step 1000 0
    (remove_known (List.range 52) ([100, 101] ++ [0, 1, 2]))
    (fun h => by
      have h2 := remove_known_subset ([100, 101] ++ [0, 1, 2]) (List.range 52) h
      simp [List.mem_range] at h2)]
  norm_num

/-- Witness for C9 at a concrete high-equity post-flop state with an
observed bet. -/
theorem make_ai_decision_highwin_witness :
    make_ai_decision cfgW (List.range 52) (('A', '♠'), ('K', '♥')) [100, 101] [0, 1, 2]
      "bet" 50 "Turn" 20 [] inferW rngW true = ("call", 0) :=
  (make_ai_decision_highwin cfgW (List.range 52) (('A', '♠'), ('K', '♥')) [100, 101]
    [0, 1, 2] 50 "Turn" 20 [] inferW rngW true (by norm_num)
    (by rw [cfgW_winrate, predict_playstyle_new]
        simp +decide [adjust_params]
        norm_num)).2

/-- Truncation toward zero and flooring agree once combined with the lower
bound 10 of the raise formula: both can differ only at negative values,
which the final 10 dominates. -/
theorem pyInt_max_floor (a b : ℚ) :
    max (pyInt a) (max (pyInt b) 10) = max ⌊a⌋ (max ⌊b⌋ 10) := by
  have key : ∀ (q : ℚ) (M : ℤ), 10 ≤ M → max (pyInt q) M = max ⌊q⌋ M := by
    intro q M hM
    by_cases h : 0 ≤ q
    · simp [pyInt, h]
    · push_neg at h
      have h1 : pyInt q ≤ M := by
        have : (⌈q⌉ : ℤ) ≤ 0 := Int.ceil_le.mpr (by exact_mod_cast h.le)
        simp only [pyInt, if_neg (not_le.mpr h)]
        omega
      have h2 : ⌊q⌋ ≤ M := by
        have : (⌊q⌋ : ℤ) ≤ 0 := Int.floor_nonpos h.le
        omega
      rw [max_eq_right h1, max_eq_right h2]
  calc max (pyInt a) (max (pyInt b) 10)
      = max (pyInt a) (max ⌊b⌋ 10) := by rw [key b 10 le_rfl]
    _ = max ⌊a⌋ (max ⌊b⌋ 10) := key a _ (le_max_right _ _)

/-- C10: every (action, amount) pair returned by make_ai_decision satisfies:
amount 0 for check, call and fold; amount 20 for a pre-flop bet and 30 for a
post-flop bet; every raise amount is the integer
max(floor(lastBet * 1.5), floor(potSize * 0.1), 10) (the source truncates
toward zero, which agrees with flooring under the max with 10) and is at
least 10; and the returned amount is never negative. -/
theorem make_ai_decision_amounts (cfg : MCConfig) (full_deck : List ℕ)
    (ai_hand : (Char × Char) × (Char × Char)) (ai_converted board_converted : List ℕ)
    (player_action : String) (pot_size : ℚ) (stage : String) (last_player_bet : ℚ)
    (csv : List Row) (infer : Features → Except Unit Playstyle) (rng : ℕ → ℚ)
    (coin : Bool) (action : String) (amount : ℤ)
    (h : make_ai_decision cfg full_deck ai_hand ai_converted board_converted player_action
      pot_size stage last_player_bet csv infer rng coin = (action, amount)) :
    ((action = "check" ∨ action = "call" ∨ action = "fold") → amount = 0) ∧
    (action = "bet" → amount = if board_converted.length < 3 then 20 else 30) ∧
    (action = "raise" →
      amount = max ⌊last_player_bet * (3/2)⌋ (max ⌊pot_size * (1/10)⌋ 10) ∧
      10 ≤ amount) ∧
    0 ≤ amount := by
  have hmax : (10 : ℤ) ≤ max ⌊last_player_bet * (3/2)⌋ (max ⌊pot_size * (1/10)⌋ 10) :=
    le_trans (le_max_right _ _) (le_max_right _ _)
  simp only [make_ai_decision] at h
  split_ifs at h <;>
    obtain ⟨rfl, rfl⟩ := Prod.mk.injEq .. ▸ h <;>
    refine ⟨?_, ?_, ?_, ?_⟩ <;>
    simp_all [pyInt_max_floor] <;>
    omega

/-- Witness for C10: a concrete pre-flop check state where the engine bets
20, fed through the theorem. -/
theorem make_ai_decision_amounts_witness :
    ("bet" = "check" ∨ "bet" = "call" ∨ "bet" = "fold" → (20 : ℤ) = 0) ∧
    ("bet" = "bet" → (20 : ℤ) = if ([] : List ℕ).length < 3 then 20 else 30) ∧
    ("bet" = "raise" →
      (20 : ℤ) = max ⌊(20 : ℚ) * (3/2)⌋ (max ⌊(50 : ℚ) * (1/10)⌋ 10) ∧ (10 : ℤ) ≤ 20) ∧
    (0 : ℤ) ≤ 20 :=
  make_ai_decision_amounts cfgW (List.range 52) (('A', '♠'), ('A', '♥')) [100, 101] []
    "check" 50 "Pre-Flop" 20 [] inferW rng0 true "bet" 20
    (by simp only [make_ai_decision]
        rw [if_pos (show ([] : List ℕ).length < 3 by norm_num), if_pos trivial,
          if_pos (Or.inl (show rng0 0 < (3 : ℚ)/10 by norm_num [rng0]))])

end PokerAgent
